import Mathlib

/-!
Shallow embedding of the interpretation core of the SlpDataEntry repository
(`therepy_sessions/interpretation/`), together with theorems that check the
natural-language specification against the code.

Python values are modelled as follows: strings are `String` (or `List Char`
for the label-splitting parser, which slices text by character positions),
dicts are association lists with Python-dict insertion/overwrite semantics
(`dictInsert` / `dictLookup`), raised exceptions are `Except` errors, and the
class-level `_tables` / `_scalars` containers of `StudentDataSheet` (which the
source never re-initialises per instance) are an explicit `SheetStore` value
threaded through interpretation calls.
-/

namespace SlpData

/-- Mirror of `DataSheetScalarType` (student_data_sheet.py). -/
inductive DataSheetScalarType where
  | TEXT
  | INT
  | CHOICE
  | DATE
  | BOOLEAN
deriving DecidableEq, Repr

/-- Mirror of the `DataSheetScalarDto` namedtuple (student_data_sheet.py):
fields `key`, `value`, `type`, `choice_options`, all four required.
`choice_options` is `Option` because the source passes `None` there when a
tally type has no choices. -/
structure DataSheetScalarDto where
  key : String
  value : String
  type : DataSheetScalarType
  choice_options : Option (List String)
deriving DecidableEq, Repr

/-- Result of interpreting one raw table: the dict
`{ "columns": ..., "data": ... }` returned by the single-table helpers.
A row record is an association list from column name to scalar. -/
structure InterpretedTable where
  columns : List String
  data : List (List (String × DataSheetScalarDto))
deriving DecidableEq, Repr

/-- Mirror of the `DataSheetInterpretationDto` namedtuple
(student_data_sheet_interpreter.py): `tables` and `scalars`.  Scalar values
are the raw strings the simple-form interpreter stores. -/
structure DataSheetInterpretationDto where
  tables : List InterpretedTable
  scalars : List (String × String)
deriving DecidableEq, Repr

/-- Raw sheet content handed to the interpreters (the `StudentDataSheetImport`
shape produced by the OCR collaborator): a form-data dict and a list of raw
2D tables of cell strings. -/
structure StudentDataSheetImport where
  form_data : List (String × String)
  tables : List (List (List String))
deriving DecidableEq, Repr

/-- Exceptions the interpretation core can raise.  `missingColumn` is the
`Exception` raised by the table interpreter's header check; `indexError` is a
Python `IndexError` (empty table, or a data row shorter than a required
column index); `typeError` is the `TypeError` raised when
`DataSheetScalarDto` is applied to three of its four required arguments;
`missingRequiredField` is the `KeyError` of an absent required form field,
named as the spec names it. -/
inductive InterpError where
  | missingColumn (column : String) (foundHeaders : List String)
  | indexError
  | typeError
  | missingRequiredField (key : String)
deriving DecidableEq, Repr

/-- Python dict item assignment `m[k] = v` on an association list: overwrite
in place if the key is present, else append at the end (dicts preserve
insertion order). -/
def dictInsert {κ α : Type} [DecidableEq κ] (m : List (κ × α)) (k : κ) (v : α) :
    List (κ × α) :=
  if m.any (fun p => p.1 = k) then
    m.map (fun p => if p.1 = k then (k, v) else p)
  else
    m ++ [(k, v)]

/-- Python dict lookup `m[k]` on an association list (first binding wins;
with unique keys this is exactly dict lookup). -/
def dictLookup {κ α : Type} [DecidableEq κ] (m : List (κ × α)) (k : κ) : Option α :=
  match m with
  | [] => none
  | p :: t => if p.1 = k then some p.2 else dictLookup t k

/-- Sequential effectful map in the `Except` monad, mirroring a Python list
comprehension or loop: the first raised exception propagates. -/
def exceptMapM {ε α β : Type} (f : α → Except ε β) : List α → Except ε (List β)
  | [] => Except.ok []
  | a :: as =>
    match f a with
    | Except.error e => Except.error e
    | Except.ok b =>
      match exceptMapM f as with
      | Except.error e => Except.error e
      | Except.ok bs => Except.ok (b :: bs)

namespace TableInterpreter

/-- Body of the inner cell loop of
`TableInterpreter._interpret_single_student_data_sheet_table`
(template_types/table_interpreter.py): read the cell at the column's header
index (`IndexError` if the data row is too short), then evaluate
`DataSheetScalarDto(column_name, cell_data, DataSheetScalarType.TEXT)` —
which raises `TypeError`, since the namedtuple requires the fourth field
`choice_options`. -/
def interpretCell (headers row : List String) (c : String) :
    Except InterpError (String × DataSheetScalarDto) :=
  match row[headers.indexOf c]? with
  | none => Except.error InterpError.indexError
  | some _cell => Except.error InterpError.typeError

/-- The `row_dto` loop of the same method: the configured columns (dict
keys, duplicates collapsed to the first occurrence) are processed in order
for one data row. -/
def interpretRow (columns headers row : List String) :
    Except InterpError (List (String × DataSheetScalarDto)) :=
  exceptMapM (interpretCell headers row) columns.eraseDups

/-- Mirror of `TableInterpreter._interpret_single_student_data_sheet_table`.
Row 0 is the header row (an empty table raises `IndexError`).  The first
configured column absent from the headers raises the missing-column
`Exception`.  Only then are the data rows processed, in order. -/
def interpret_single_table (columns : List String) (table : List (List String)) :
    Except InterpError InterpretedTable :=
  match table with
  | [] => Except.error InterpError.indexError
  | headers :: dataRows =>
    match columns.find? (fun c => !(headers.contains c)) with
    | some c => Except.error (InterpError.missingColumn c headers)
    | none =>
      match exceptMapM (interpretRow columns headers) dataRows with
      | Except.error e => Except.error e
      | Except.ok data => Except.ok ⟨columns, data⟩

/-- Mirror of `TableInterpreter.interpret_student_data_sheet_content`:
interpret every raw table in order; the scalars portion is the empty dict. -/
def interpret_student_data_sheet_content (columns : List String)
    (content : StudentDataSheetImport) : Except InterpError DataSheetInterpretationDto :=
  match exceptMapM (interpret_single_table columns) content.tables with
  | Except.error e => Except.error e
  | Except.ok ts => Except.ok ⟨ts, []⟩

end TableInterpreter

namespace RunningTallyInterpreter

/-- Faithful rendering of the tally-string accumulation in
`RunningTallyInterpreter._interpret_single_student_data_sheet_table`
(template_types/running_tally_interpreter.py): for each row,
`reduce(lambda acc, s: acc + s, row, '')` concatenates the cells, and the
per-row strings are concatenated in row order. -/
def tallyString (table : List (List String)) : String :=
  table.foldl (fun acc row => acc ++ row.foldl (fun a s => a ++ s) "") ""

/-- Mirror of
`RunningTallyInterpreter._interpret_single_student_data_sheet_table`: one
output row per character of the tally string, each mapping `"Tally"` to a
scalar with key `"Tally"`, that character as value, the configured tally
type and the configured choice options. -/
def interpret_single_table (tally_type : DataSheetScalarType)
    (tally_choice_options : Option (List String)) (table : List (List String)) :
    InterpretedTable :=
  ⟨["Tally"],
    (tallyString table).toList.map (fun letter =>
      [("Tally", ⟨"Tally", String.singleton letter, tally_type, tally_choice_options⟩)])⟩

/-- Mirror of `RunningTallyInterpreter.interpret_student_data_sheet_content`:
interpret every raw table in order; the scalars portion is the empty dict. -/
def interpret_student_data_sheet_content (tally_type : DataSheetScalarType)
    (tally_choice_options : Option (List String)) (content : StudentDataSheetImport) :
    DataSheetInterpretationDto :=
  ⟨content.tables.map (interpret_single_table tally_type tally_choice_options), []⟩

end RunningTallyInterpreter

namespace SimpleFormInterpreter

/-- Mirror of `FieldConfiguration` (template_types/simple_form_interpreter.py). -/
structure FieldConfiguration where
  name : String
  fieldType : DataSheetScalarType
deriving DecidableEq, Repr

/-- Mirror of `SimpleFormInterpreter.interpret_student_data_sheet_content`:
keep exactly the form-data entries whose key is a configured field name
(`kv.key in self._fields.keys()`); the tables portion is the empty list. -/
def interpret_student_data_sheet_content (fields : List (String × FieldConfiguration))
    (content : StudentDataSheetImport) : DataSheetInterpretationDto :=
  ⟨[], content.form_data.filter (fun kv => (fields.map Prod.fst).contains kv.1)⟩

end SimpleFormInterpreter

/-- The six per-instance string attributes that `StudentDataSheet.__init__`
does assign (student_data_sheet.py). -/
structure StudentDataSheetFields where
  student_key : String
  student_goal : String
  date : String
  time_in : String
  time_out : String
  measure : String
deriving DecidableEq, Repr

/-- The `_tables` list and `_scalars` dict of `StudentDataSheet`.  In the
source these are class-level attributes and `__init__` never re-assigns
them, so every instance aliases one shared pair of containers; the model
therefore threads this store through interpretation calls instead of storing
it inside `StudentDataSheetFields`. -/
structure SheetStore where
  tables : List InterpretedTable
  scalars : List (String × String)
deriving DecidableEq, Repr

/-- Mirror of `StudentDataSheet.register_table`: `self._tables.append(table)`. -/
def register_table (st : SheetStore) (t : InterpretedTable) : SheetStore :=
  { st with tables := st.tables ++ [t] }

/-- Mirror of `StudentDataSheet.register_scalar`:
`self._scalars[scalar_name] = scalar_dto`. -/
def register_scalar (st : SheetStore) (k : String) (v : String) : SheetStore :=
  { st with scalars := dictInsert st.scalars k v }

/-- The registration loops of
`StudentDataSheetInterpreter.interpret_student_data_sheet` for one
interpretation: first every table is appended, then every scalar is
registered. -/
def registerInterpretation (st : SheetStore) (d : DataSheetInterpretationDto) :
    SheetStore :=
  d.scalars.foldl (fun s kv => register_scalar s kv.1 kv.2)
    (d.tables.foldl register_table st)

/-- The outer registration loop over the list of interpretations. -/
def registerAll (st : SheetStore) (ds : List DataSheetInterpretationDto) : SheetStore :=
  ds.foldl registerInterpretation st

/-- A configured section interpreter (`session_data_templates` element), as
the composite interpreter uses it: a function from raw content to an
interpretation, possibly raising. -/
abbrev SectionInterpreter : Type :=
  StudentDataSheetImport → Except InterpError DataSheetInterpretationDto

/-- Variant of `exceptMapM` that also counts how many elements the loop
actually applied `f` to before returning (each element is invoked exactly
once, in order, up to and including the first failing one). -/
def exceptMapMTraced {ε α β : Type} (f : α → Except ε β) :
    List α → Except ε (List β) × Nat
  | [] => (Except.ok [], 0)
  | a :: as =>
    match f a with
    | Except.error e => (Except.error e, 1)
    | Except.ok b =>
      match exceptMapMTraced f as with
      | (Except.error e, n) => (Except.error e, n + 1)
      | (Except.ok bs, n) => (Except.ok (b :: bs), n + 1)

/-- Lookup of a required metadata field, `data_sheet_content.form_data[key]`:
a Python `KeyError` on an absent key, modelled (as the spec directs) as
`missingRequiredField`. -/
def requiredLookup (fd : List (String × String)) (k : String) :
    Except InterpError String :=
  match dictLookup fd k with
  | some v => Except.ok v
  | none => Except.error (InterpError.missingRequiredField k)

/-- The six metadata reads at the top of
`StudentDataSheetInterpreter.interpret_student_data_sheet`, in source order:
`Student Key`, `Date`, `Time IN`, `Time OUT`, `Goal`, `Measure`.  The first
absent key raises. -/
def readRequired (fd : List (String × String)) :
    Except InterpError StudentDataSheetFields :=
  match requiredLookup fd "Student Key" with
  | Except.error e => Except.error e
  | Except.ok student_key =>
  match requiredLookup fd "Date" with
  | Except.error e => Except.error e
  | Except.ok date =>
  match requiredLookup fd "Time IN" with
  | Except.error e => Except.error e
  | Except.ok time_in =>
  match requiredLookup fd "Time OUT" with
  | Except.error e => Except.error e
  | Except.ok time_out =>
  match requiredLookup fd "Goal" with
  | Except.error e => Except.error e
  | Except.ok student_goal =>
  match requiredLookup fd "Measure" with
  | Except.error e => Except.error e
  | Except.ok measure =>
    Except.ok ⟨student_key, student_goal, date, time_in, time_out, measure⟩

/-- Mirror of `StudentDataSheetInterpreter.interpret_student_data_sheet`
(student_data_sheet_interpreter.py), instrumented with the number of section
interpreters actually invoked.  The six required fields are read in source
order; then every configured interpreter is run on the same content (first
exception propagating); only after all interpretations are computed are
tables and scalars registered into the shared store.  The result pairs the
per-call outcome with the store as it stands when the call returns or
raises. -/
def interpret_traced (templates : List SectionInterpreter)
    (content : StudentDataSheetImport) (store : SheetStore) :
    (Except InterpError StudentDataSheetFields × SheetStore) × Nat :=
  match readRequired content.form_data with
  | Except.error e => ((Except.error e, store), 0)
  | Except.ok flds =>
    match exceptMapMTraced (fun t => t content) templates with
    | (Except.error e, n) => ((Except.error e, store), n)
    | (Except.ok interps, n) =>
      ((Except.ok flds, registerAll store interps), n)

/-- The composite interpreter as the caller sees it (per-call outcome and
resulting shared store). -/
def interpret_student_data_sheet (templates : List SectionInterpreter)
    (content : StudentDataSheetImport) (store : SheetStore) :
    Except InterpError StudentDataSheetFields × SheetStore :=
  (interpret_traced templates content store).1

/-- Python `text.find(needle)` restricted to the found case: index of the
first occurrence of `needle` as a sublist, scanning left to right. -/
def firstOccur (needle : List Char) : List Char → Option Nat
  | [] => if needle = [] then some 0 else none
  | c :: rest =>
    if needle.isPrefixOf (c :: rest) then some 0
    else (firstOccur needle rest).map (· + 1)

/-- Python `text.find(needle)`: first-occurrence index, `-1` when absent. -/
def findPos (text needle : List Char) : Int :=
  match firstOccur needle text with
  | some n => (n : Int)
  | none => -1

/-- Normalisation of one Python slice index against a length: negative
indices count from the end and clamp at `0`. -/
def pySliceNorm (n : Nat) (i : Int) : Nat :=
  if i < 0 then ((n : Int) + i).toNat else i.toNat

/-- Python slice `text[a:b]` (with `take`/`drop` clamping out-of-range
indices exactly as Python does). -/
def pySlice (l : List Char) (a b : Int) : List Char :=
  (l.take (pySliceNorm l.length b)).drop (pySliceNorm l.length a)

/-- The whitespace characters Python `str.strip()` removes (ASCII range). -/
def isPySpace (c : Char) : Bool :=
  c = ' ' || c = '\t' || c = '\n' || c = '\r' || c = '\x0b' || c = '\x0c'

/-- Python `s.strip()`. -/
def pyStrip (l : List Char) : List Char :=
  ((l.dropWhile isPySpace).reverse.dropWhile isPySpace).reverse

/-- Python `s.split(':', maxsplit=1)[1]`: the text after the first colon,
`none` (an `IndexError` in the source) when there is no colon. -/
def afterFirstColon : List Char → Option (List Char)
  | [] => none
  | c :: rest => if c = ':' then some rest else afterFirstColon rest

/-- Python `s.lower()` on the label strings involved (per-character). -/
def lowerChars (l : List Char) : List Char :=
  l.map Char.toLower

/-- Mirror of the per-label content dict
`{ 'label': ..., 'content_with_label': ..., 'content_without_label': ... }`
built by `_split_by_labels`. -/
structure LabelContent where
  label : List Char
  content_with_label : List Char
  content_without_label : List Char
deriving DecidableEq, Repr

/-- One step of a stable insertion sort on `(label, position)` pairs,
ascending by position: the inserted element goes before the first element
whose position is not smaller, which reproduces the output of Python's
stable `sorted(..., key=lambda lwp: lwp.pos)`. -/
def insertByPos (x : List Char × Int) :
    List (List Char × Int) → List (List Char × Int)
  | [] => [x]
  | y :: ys => if x.2 ≤ y.2 then x :: y :: ys else y :: insertByPos x ys

/-- Stable sort by position, as `sorted(labels_with_positions, key=pos)`. -/
def sortByPos (l : List (List Char × Int)) : List (List Char × Int) :=
  l.foldr insertByPos []

/-- The `next_label_position` used by the loop of `_split_by_labels`,
given the remainder of the sorted list after the current entry: the next
entry's position, or the text length when the current entry is last. -/
def nextPosOf (text : List Char) (rest : List (List Char × Int)) : Int :=
  match rest with
  | [] => (text.length : Int)
  | (_, p2) :: _ => p2

/-- The indexed loop of `_split_by_labels`: each label's span runs from its
position to the next entry's position in the sorted list, or to the end of
the text for the last entry; the span is stripped, and the part after its
first colon (an `IndexError` if there is none) is the content without
label. -/
def spansOf (text : List Char) :
    List (List Char × Int) → Except InterpError (List (List Char × LabelContent))
  | [] => Except.ok []
  | (l, p) :: rest =>
    match afterFirstColon (pyStrip (pySlice text p (nextPosOf text rest))) with
    | none => Except.error InterpError.indexError
    | some tl =>
      match spansOf text rest with
      | Except.error e => Except.error e
      | Except.ok entries =>
        Except.ok ((lowerChars l,
          ⟨l, pyStrip (pySlice text p (nextPosOf text rest)), pyStrip tl⟩) :: entries)

/-- The `labels_with_positions` list of `_split_by_labels` after the sort:
each label paired with its find-position, stably sorted ascending by
position. -/
def sortedLabels (text : List Char) (labels : List (List Char)) :
    List (List Char × Int) :=
  sortByPos (labels.map (fun l => (l, findPos text l)))

/-- The `next_label_position` for index `i` of the sorted list. -/
def spanEnd (text : List Char) (sorted : List (List Char × Int)) (i : Nat) : Int :=
  match sorted[i + 1]? with
  | some p => p.2
  | none => (text.length : Int)

/-- Mirror of `StudentDataSheetInterpreter._split_by_labels`
(student_data_sheet_interpreter.py; student_data_template.py holds the same
code): find every label's position, sort by position, slice into spans, key
the resulting dict by lowercased label, and finally store the text before
the first sorted position under `'student_key'`.  An empty label list
raises `IndexError` at `labels_with_positions[0]`. -/
def split_by_labels (text : List Char) (labels : List (List Char)) :
    Except InterpError (List (List Char × LabelContent)) :=
  match spansOf text (sortedLabels text labels) with
  | Except.error e => Except.error e
  | Except.ok entries =>
    match sortedLabels text labels with
    | [] => Except.error InterpError.indexError
    | (_, p0) :: _ =>
      Except.ok (dictInsert (entries.foldl (fun m e => dictInsert m e.1 e.2) [])
        "student_key".toList
        ⟨"Student Key".toList, pyStrip (pySlice text 0 p0), pyStrip (pySlice text 0 p0)⟩)

/-- Specification-side description of the running tally's character order:
all cells of all rows, row-major (row 0 first, each row left to right). -/
def rowMajorChars (t : List (List String)) : List Char :=
  (t.map (fun row => (row.map String.toList).flatten)).flatten

/-- Total character count across all cells of a raw table. -/
def totalChars (t : List (List String)) : Nat :=
  (t.map (fun row => (row.map String.length).sum)).sum

/-- The tally row the spec describes for one character. -/
def mkTallyRow (ty : DataSheetScalarType) (opts : Option (List String)) (c : Char) :
    List (String × DataSheetScalarDto) :=
  [("Tally", ⟨"Tally", String.singleton c, ty, opts⟩)]

/-- The six required metadata keys, in the order the source reads them. -/
def requiredKeys : List String :=
  ["Student Key", "Date", "Time IN", "Time OUT", "Goal", "Measure"]

/-! ### Helper lemmas about the `Except` loops -/

theorem exceptMapM_error_imp {ε α β : Type} (f : α → Except ε β) (P : ε → Prop)
    (hf : ∀ a e, f a = Except.error e → P e) :
    ∀ (l : List α) (e : ε), exceptMapM f l = Except.error e → P e := by
  intro l
  induction l with
  | nil =>
    intro e h
    simp [exceptMapM] at h
  | cons a as ih =>
    intro e h
    rw [exceptMapM] at h
    cases hfa : f a with
    | error e2 =>
      simp only [hfa] at h
      injection h with h1
      exact h1 ▸ hf a e2 hfa
    | ok b =>
      simp only [hfa] at h
      cases hm : exceptMapM f as with
      | error e2 =>
        simp only [hm] at h
        injection h with h1
        exact h1 ▸ ih e2 hm
      | ok bs =>
        simp only [hm] at h
        exact Except.noConfusion h

theorem exceptMapM_append_error {ε α β : Type} (f : α → Except ε β)
    (pre : List α) (t : α) (post : List α) (e : ε)
    (hpre : ∀ x ∈ pre, ∃ b, f x = Except.ok b) (ht : f t = Except.error e) :
    exceptMapM f (pre ++ t :: post) = Except.error e := by
  induction pre with
  | nil =>
    rw [List.nil_append, exceptMapM, ht]
  | cons a as ih =>
    obtain ⟨b, hb⟩ := hpre a (by simp)
    rw [List.cons_append, exceptMapM, hb,
      ih (fun x hx => hpre x (by simp [hx]))]

theorem exceptMapM_error_of_mem {ε α β : Type} (f : α → Except ε β)
    (l : List α) (x : α) (e : ε) (hx : x ∈ l) (hfx : f x = Except.error e) :
    ∃ e2, exceptMapM f l = Except.error e2 := by
  induction l with
  | nil => cases hx
  | cons a as ih =>
    rw [exceptMapM]
    cases hfa : f a with
    | error e2 => exact ⟨e2, rfl⟩
    | ok b =>
      rcases List.mem_cons.mp hx with h | h
      · rw [h, hfa] at hfx
        exact absurd hfx (by simp)
      · obtain ⟨e2, he2⟩ := ih h
        rw [he2]
        exact ⟨e2, rfl⟩

theorem exceptMapMTraced_fst {ε α β : Type} (f : α → Except ε β) (l : List α) :
    (exceptMapMTraced f l).1 = exceptMapM f l := by
  induction l with
  | nil => rfl
  | cons a as ih =>
    rw [exceptMapMTraced, exceptMapM]
    cases hfa : f a with
    | error e => rfl
    | ok b =>
      rw [← ih]
      cases hm : exceptMapMTraced f as with
      | mk r n => cases r <;> simp

/-- Errors escaping the data-row loop of the table interpreter are only
`IndexError` or `TypeError`, never the missing-column one. -/
theorem interpretRow_error_cases (columns headers row : List String)
    (e : InterpError) (h : TableInterpreter.interpretRow columns headers row =
      Except.error e) :
    e = InterpError.indexError ∨ e = InterpError.typeError := by
  rw [TableInterpreter.interpretRow] at h
  refine exceptMapM_error_imp (TableInterpreter.interpretCell headers row)
    (fun e2 => e2 = InterpError.indexError ∨ e2 = InterpError.typeError) ?_ _ _ h
  intro c e2 hc
  cases hx : row[headers.indexOf c]? with
  | none =>
    simp only [TableInterpreter.interpretCell, hx] at hc
    injection hc with h1
    exact Or.inl h1.symm
  | some _ =>
    simp only [TableInterpreter.interpretCell, hx] at hc
    injection hc with h1
    exact Or.inr h1.symm

/-- The data-row loop of the table interpreter, over all rows, can fail only
with `IndexError` or `TypeError`. -/
theorem interpretRow_error_cases_list (columns headers : List String)
    (dataRows : List (List String)) (e : InterpError)
    (h : exceptMapM (TableInterpreter.interpretRow columns headers) dataRows =
      Except.error e) :
    e = InterpError.indexError ∨ e = InterpError.typeError :=
  exceptMapM_error_imp _ _
    (fun row e2 h2 => interpretRow_error_cases columns headers row e2 h2)
    dataRows e h

/-! ### Claim theorems -/

/-- C1.  The claim states the happy path of the table interpreter: for a
table whose header row has all configured columns, each data cell becomes a
TEXT-typed scalar keyed by its column.  The code cannot produce it: the
source calls the four-field `DataSheetScalarDto` namedtuple with only three
arguments, so interpreting any table with at least one data row and one
configured column raises `TypeError`.  Evaluated here at the failing input
`columns = ["A"]`, `tables = [[["A"], ["x"]]]`. -/
theorem spec_c1_table_interpreter_crashes_on_data_row :
    TableInterpreter.interpret_student_data_sheet_content ["A"]
        ⟨[("Student Key", "JA")], [[["A"], ["x"]]]⟩ =
      Except.error InterpError.typeError := rfl

/-- C6.  For every non-empty raw table, the table interpreter fails with the
missing-column error iff some configured column is absent from header row 0
(exact string comparison), regardless of the data rows. -/
theorem spec_c6_missing_column_iff (columns headers : List String)
    (dataRows : List (List String)) :
    (∃ c hs, TableInterpreter.interpret_single_table columns (headers :: dataRows) =
        Except.error (InterpError.missingColumn c hs)) ↔
      ∃ c, c ∈ columns ∧ ¬ c ∈ headers := by
  cases hf : columns.find? (fun c => !(headers.contains c)) with
  | none =>
    have hall := List.find?_eq_none.mp hf
    simp only [TableInterpreter.interpret_single_table, hf]
    constructor
    · rintro ⟨c, hs, hEq⟩
      exfalso
      cases hm : exceptMapM (TableInterpreter.interpretRow columns headers) dataRows with
      | error e =>
        simp only [hm] at hEq
        injection hEq with h1
        rcases interpretRow_error_cases_list columns headers dataRows e hm with h2 | h2 <;>
          · rw [h2] at h1
            exact InterpError.noConfusion h1
      | ok data =>
        simp only [hm] at hEq
        exact Except.noConfusion hEq
    · rintro ⟨c, hc, hnotc⟩
      have h1 := hall c hc
      simp [List.contains, List.elem_iff] at h1
      exact absurd h1 hnotc
  | some c =>
    have hpc := List.find?_some hf
    have hmem : c ∈ columns := List.mem_of_find?_eq_some hf
    simp only [TableInterpreter.interpret_single_table, hf]
    constructor
    · intro _
      refine ⟨c, hmem, fun hin => ?_⟩
      simp [List.contains, List.elem_iff] at hpc
      exact hpc hin
    · intro _
      exact ⟨c, headers, rfl⟩

/-- Concatenating the cells of one row (the per-row `reduce`) yields, as a
character list, the row's cells flattened left to right. -/
theorem rowFold_data (row : List String) (s : String) :
    (row.foldl (fun a b => a ++ b) s).data =
      s.data ++ (row.map String.toList).flatten := by
  induction row generalizing s with
  | nil => simp
  | cons r rs ih =>
    rw [List.foldl_cons, ih]
    simp [String.toList, List.append_assoc]

set_option maxRecDepth 2000 in
/-- The tally-string fold appends the row-major character sequence of the
table to whatever has been accumulated so far. -/
theorem tallyFold_data (table : List (List String)) :
    ∀ s : String,
      (table.foldl (fun acc row => acc ++ row.foldl (fun a s => a ++ s) "") s).data =
        s.data ++ rowMajorChars table := by
  induction table with
  | nil => intro s; simp [rowMajorChars]
  | cons row rest ih =>
    intro s
    have h0 : ("" : String).data = [] := rfl
    rw [List.foldl_cons, ih, String.data_append, rowFold_data, h0, List.nil_append,
      List.append_assoc]
    simp only [rowMajorChars, List.map_cons, List.flatten_cons]

/-- One row contributes as many characters as the sum of its cell lengths. -/
theorem cellRow_length (row : List String) :
    ((row.map String.toList).flatten).length = (row.map String.length).sum := by
  induction row with
  | nil => rfl
  | cons s rs ih =>
    have hlen : (String.toList s).length = s.length := rfl
    simp [ih, hlen]

/-- The row-major character sequence has one character per cell character. -/
theorem rowMajorChars_length (t : List (List String)) :
    (rowMajorChars t).length = totalChars t := by
  induction t with
  | nil => rfl
  | cons row rest ih =>
    simp only [rowMajorChars, totalChars, List.map_cons, List.flatten_cons,
      List.length_append, List.sum_cons] at ih ⊢
    rw [cellRow_length, ih]

/-- The accumulated tally string is exactly the row-major character
sequence of the table. -/
theorem tallyString_toList (table : List (List String)) :
    (RunningTallyInterpreter.tallyString table).toList = rowMajorChars table := by
  have h := tallyFold_data table ""
  have h0 : ("" : String).data = [] := rfl
  rw [h0, List.nil_append] at h
  exact h

/-- C4.  The running tally interpreter yields one interpreted table per raw
table, in order, with `columns = ["Tally"]`, one data row per character of
the table's cells in row-major order, each row mapping `"Tally"` to a
scalar carrying that character, the configured tally type and the
configured choice options; the scalars portion is empty, and the number of
data rows equals the total character count across the table's cells. -/
theorem spec_c4_running_tally (ty : DataSheetScalarType)
    (opts : Option (List String)) (content : StudentDataSheetImport) :
    RunningTallyInterpreter.interpret_student_data_sheet_content ty opts content =
      ⟨content.tables.map
        (fun t => ⟨["Tally"], (rowMajorChars t).map (mkTallyRow ty opts)⟩), []⟩ ∧
    ∀ t : List (List String),
      ((rowMajorChars t).map (mkTallyRow ty opts)).length = totalChars t := by
  constructor
  · have hsingle : ∀ t, RunningTallyInterpreter.interpret_single_table ty opts t =
        ⟨["Tally"], (rowMajorChars t).map (mkTallyRow ty opts)⟩ := by
      intro t
      rw [RunningTallyInterpreter.interpret_single_table, tallyString_toList]
      rfl
    rw [RunningTallyInterpreter.interpret_student_data_sheet_content,
      funext hsingle]
  · intro t
    rw [List.length_map]
    exact rowMajorChars_length t

/-- Keys survive filtering: the key list of the filtered form data is the
filtered key list. -/
theorem map_fst_filter_keys {α : Type} (l : List (String × α)) (p : String → Bool) :
    (l.filter (fun kv => p kv.1)).map Prod.fst = (l.map Prod.fst).filter p := by
  induction l with
  | nil => rfl
  | cons a t ih =>
    cases hp : p a.1 with
    | true => simp [List.filter_cons, hp, ih]
    | false => simp [List.filter_cons, hp, ih]

/-- Looking a configured key up in the filtered form data gives the same
answer as looking it up in the full form data. -/
theorem dictLookup_filter {α : Type} (l : List (String × α)) (p : String → Bool)
    (k : String) (hk : p k = true) :
    dictLookup (l.filter (fun kv => p kv.1)) k = dictLookup l k := by
  induction l with
  | nil => rfl
  | cons a t ih =>
    cases hp : p a.1 with
    | true =>
      rw [@List.filter_cons_of_pos _ (fun kv => p kv.1) a t hp]
      by_cases hak : a.1 = k
      · simp [dictLookup, hak]
      · simp [dictLookup, hak, ih]
    | false =>
      have hak : ¬ a.1 = k := fun h => by rw [h, hk] at hp; cases hp
      rw [@List.filter_cons_of_neg _ (fun kv => p kv.1) a t (by simp [hp])]
      simp [dictLookup, hak, ih]

/-- C5.  The simple form interpreter returns no tables, its scalar keys are
exactly the configured field names present in `form_data` (keys of
`form_data` in their order, restricted to configured names), a pair belongs
to the output iff it belongs to `form_data` with a configured key, and
every configured key resolves to its `form_data` value. -/
theorem spec_c5_simple_form (fields : List (String × SimpleFormInterpreter.FieldConfiguration))
    (content : StudentDataSheetImport)
    (hnodup : (content.form_data.map Prod.fst).Nodup) :
    (SimpleFormInterpreter.interpret_student_data_sheet_content fields content).tables = [] ∧
    (SimpleFormInterpreter.interpret_student_data_sheet_content fields content).scalars.map Prod.fst =
      (content.form_data.map Prod.fst).filter (fun k => (fields.map Prod.fst).contains k) ∧
    (∀ k v,
      (k, v) ∈ (SimpleFormInterpreter.interpret_student_data_sheet_content fields content).scalars ↔
        ((k, v) ∈ content.form_data ∧ (fields.map Prod.fst).contains k = true)) ∧
    ∀ k, (fields.map Prod.fst).contains k = true →
      dictLookup (SimpleFormInterpreter.interpret_student_data_sheet_content fields content).scalars k =
        dictLookup content.form_data k := by
  refine ⟨rfl, ?_, ?_, ?_⟩
  · exact map_fst_filter_keys content.form_data _
  · intro k v
    rw [SimpleFormInterpreter.interpret_student_data_sheet_content]
    exact List.mem_filter
  · intro k hk
    exact dictLookup_filter content.form_data _ k hk

/-- Witness for C5 at a concrete input: configured fields
`Total, Extra`, form data `Total ↦ 4, Other ↦ 9`. -/
theorem spec_c5_simple_form_witness :
    (["Total", "Other"] : List String).Nodup ∧
    (SimpleFormInterpreter.interpret_student_data_sheet_content
        [("Total", ⟨"Total", DataSheetScalarType.INT⟩),
         ("Extra", ⟨"Extra", DataSheetScalarType.TEXT⟩)]
        ⟨[("Total", "4"), ("Other", "9")], []⟩).scalars.map Prod.fst =
      ["Total"] := by
  constructor
  · decide
  · have h := spec_c5_simple_form
      [("Total", ⟨"Total", DataSheetScalarType.INT⟩),
       ("Extra", ⟨"Extra", DataSheetScalarType.TEXT⟩)]
      ⟨[("Total", "4"), ("Other", "9")], []⟩ (by decide)
    rw [h.2.1]
    rfl

/-! ### Dict lemmas -/

/-- Specification-side reading of last-write-wins: the value of the last
binding of a key in a write sequence. -/
def lastWins (l : List (String × String)) (k : String) : Option String :=
  dictLookup l.reverse k

theorem dictLookup_append {κ α : Type} [DecidableEq κ] (a b : List (κ × α)) (k : κ) :
    dictLookup (a ++ b) k = (dictLookup a k).or (dictLookup b k) := by
  induction a with
  | nil => simp [dictLookup]
  | cons p t ih =>
    by_cases hp : p.1 = k
    · simp [dictLookup, hp]
    · simp [dictLookup, hp, ih]

theorem dictLookup_eq_none_of_not_any {κ α : Type} [DecidableEq κ] (m : List (κ × α)) (k : κ)
    (h : m.any (fun p => p.1 = k) = false) : dictLookup m k = none := by
  induction m with
  | nil => rfl
  | cons p t ih =>
    simp only [List.any_cons, Bool.or_eq_false_iff, decide_eq_false_iff_not] at h
    simp [dictLookup, h.1, ih (by simpa using h.2)]

theorem dictLookup_map_update_ne {κ α : Type} [DecidableEq κ] (k' k : κ) (v : α) (hk : ¬ k = k') :
    ∀ m : List (κ × α),
      dictLookup (m.map (fun p => if p.1 = k' then (k', v) else p)) k = dictLookup m k := by
  intro m
  induction m with
  | nil => rfl
  | cons p t ih =>
    by_cases hp : p.1 = k'
    · have hpk : ¬ p.1 = k := fun h => hk (h ▸ hp ▸ rfl)
      have hkk : ¬ k' = k := fun h => hk h.symm
      simp [dictLookup, hp, hpk, hkk, ih]
    · by_cases hpk : p.1 = k
      · simp [dictLookup, hp, hpk, hk]
      · simp [dictLookup, hp, hpk, ih]

theorem dictLookup_map_update {κ α : Type} [DecidableEq κ] (k' k : κ) (v : α) :
    ∀ m : List (κ × α), m.any (fun p => p.1 = k') = true →
      dictLookup (m.map (fun p => if p.1 = k' then (k', v) else p)) k =
        if k = k' then some v else dictLookup m k := by
  intro m
  induction m with
  | nil => intro h; simp at h
  | cons p t ih =>
    intro h
    by_cases hp : p.1 = k'
    · by_cases hk : k = k'
      · simp [dictLookup, hp, hk]
      · have hpk : ¬ p.1 = k := fun h2 => hk (h2 ▸ hp ▸ rfl)
        have hkk : ¬ k' = k := fun h2 => hk h2.symm
        simp [dictLookup, hp, hpk, hkk, hk, dictLookup_map_update_ne k' k v hk t]
    · have ht : t.any (fun p => p.1 = k') = true := by
        simp only [List.any_cons, Bool.or_eq_true_iff, decide_eq_true_eq] at h
        rcases h with h | h
        · exact absurd h hp
        · exact h
      by_cases hpk : p.1 = k
      · have hk : ¬ k = k' := fun h2 => hp (hpk ▸ h2 ▸ rfl)
        simp [dictLookup, hp, hpk, hk]
      · simp [dictLookup, hp, hpk, ih ht]

theorem dictLookup_dictInsert {κ α : Type} [DecidableEq κ] (m : List (κ × α)) (k' k : κ) (v : α) :
    dictLookup (dictInsert m k' v) k = if k = k' then some v else dictLookup m k := by
  rw [dictInsert]
  by_cases hany : m.any (fun p => p.1 = k') = true
  · rw [if_pos hany]
    exact dictLookup_map_update k' k v m hany
  · rw [if_neg hany, dictLookup_append]
    by_cases hk : k = k'
    · have hnone : dictLookup m k = none := by
        rw [hk]
        exact dictLookup_eq_none_of_not_any m k' (Bool.not_eq_true _ ▸ hany)
      subst hk
      simp [hnone, dictLookup]
    · have hkk : ¬ k' = k := fun h => hk h.symm
      simp [dictLookup, hk, hkk, Option.or_none]

theorem dictLookup_foldl_insert {κ α : Type} [DecidableEq κ] (k : κ) :
    ∀ (l : List (κ × α)) (m : List (κ × α)),
      dictLookup (l.foldl (fun mm kv => dictInsert mm kv.1 kv.2) m) k =
        (dictLookup l.reverse k).or (dictLookup m k) := by
  intro l
  induction l with
  | nil => intro m; simp [dictLookup]
  | cons kv t ih =>
    intro m
    rw [List.foldl_cons, ih, List.reverse_cons, dictLookup_append,
      dictLookup_dictInsert, Option.or_assoc]
    cases hl : dictLookup t.reverse k with
    | some v => simp
    | none =>
      simp only [Option.none_or]
      by_cases hk : k = kv.1
      · subst hk
        simp [dictLookup]
      · have hk2 : ¬ kv.1 = k := fun h => hk h.symm
        simp [dictLookup, hk, hk2]

/-! ### Store registration lemmas -/

theorem tablesFold_tables :
    ∀ (l : List InterpretedTable) (st : SheetStore),
      (l.foldl register_table st).tables = st.tables ++ l := by
  intro l
  induction l with
  | nil => intro st; simp
  | cons t ts ih =>
    intro st
    rw [List.foldl_cons, ih]
    simp [register_table]

theorem tablesFold_scalars :
    ∀ (l : List InterpretedTable) (st : SheetStore),
      (l.foldl register_table st).scalars = st.scalars := by
  intro l
  induction l with
  | nil => intro st; rfl
  | cons t ts ih =>
    intro st
    rw [List.foldl_cons, ih]
    rfl

theorem scalarsFold_scalars :
    ∀ (l : List (String × String)) (st : SheetStore),
      (l.foldl (fun s kv => register_scalar s kv.1 kv.2) st).scalars =
        l.foldl (fun mm kv => dictInsert mm kv.1 kv.2) st.scalars := by
  intro l
  induction l with
  | nil => intro st; rfl
  | cons kv t ih =>
    intro st
    rw [List.foldl_cons, List.foldl_cons, ih]
    rfl

theorem scalarsFold_tables :
    ∀ (l : List (String × String)) (st : SheetStore),
      (l.foldl (fun s kv => register_scalar s kv.1 kv.2) st).tables = st.tables := by
  intro l
  induction l with
  | nil => intro st; rfl
  | cons kv t ih =>
    intro st
    rw [List.foldl_cons, ih]
    rfl

theorem registerInterpretation_tables (st : SheetStore) (d : DataSheetInterpretationDto) :
    (registerInterpretation st d).tables = st.tables ++ d.tables := by
  rw [registerInterpretation, scalarsFold_tables, tablesFold_tables]

theorem registerInterpretation_scalars (st : SheetStore) (d : DataSheetInterpretationDto) :
    (registerInterpretation st d).scalars =
      d.scalars.foldl (fun mm kv => dictInsert mm kv.1 kv.2) st.scalars := by
  rw [registerInterpretation, scalarsFold_scalars, tablesFold_scalars]

theorem registerAll_tables :
    ∀ (ds : List DataSheetInterpretationDto) (st : SheetStore),
      (registerAll st ds).tables =
        st.tables ++ (ds.map DataSheetInterpretationDto.tables).flatten := by
  intro ds
  induction ds with
  | nil => intro st; simp [registerAll]
  | cons d t ih =>
    intro st
    rw [registerAll, List.foldl_cons]
    have h := ih (registerInterpretation st d)
    rw [registerAll] at h
    rw [h, registerInterpretation_tables]
    simp [List.append_assoc]

theorem registerAll_scalars :
    ∀ (ds : List DataSheetInterpretationDto) (st : SheetStore),
      (registerAll st ds).scalars =
        ((ds.map DataSheetInterpretationDto.scalars).flatten).foldl
          (fun mm kv => dictInsert mm kv.1 kv.2) st.scalars := by
  intro ds
  induction ds with
  | nil => intro st; simp [registerAll]
  | cons d t ih =>
    intro st
    rw [registerAll, List.foldl_cons]
    have h := ih (registerInterpretation st d)
    rw [registerAll] at h
    rw [h, registerInterpretation_scalars]
    simp [List.foldl_append]

/-- If every required key is present in the form data, the metadata reads
succeed. -/
theorem readRequired_isOk (fd : List (String × String))
    (hreq : ∀ k ∈ requiredKeys, (dictLookup fd k).isSome = true) :
    ∃ flds, readRequired fd = Except.ok flds := by
  obtain ⟨v1, hv1⟩ := Option.isSome_iff_exists.mp (hreq "Student Key" (by simp [requiredKeys]))
  obtain ⟨v2, hv2⟩ := Option.isSome_iff_exists.mp (hreq "Date" (by simp [requiredKeys]))
  obtain ⟨v3, hv3⟩ := Option.isSome_iff_exists.mp (hreq "Time IN" (by simp [requiredKeys]))
  obtain ⟨v4, hv4⟩ := Option.isSome_iff_exists.mp (hreq "Time OUT" (by simp [requiredKeys]))
  obtain ⟨v5, hv5⟩ := Option.isSome_iff_exists.mp (hreq "Goal" (by simp [requiredKeys]))
  obtain ⟨v6, hv6⟩ := Option.isSome_iff_exists.mp (hreq "Measure" (by simp [requiredKeys]))
  exact ⟨⟨v1, v5, v2, v3, v4, v6⟩,
    by simp [readRequired, requiredLookup, hv1, hv2, hv3, hv4, hv5, hv6]⟩

/-- C2.  On an interpreter list whose members all succeed (and form data
holding the six required keys), interpretation starting from the empty
shared containers returns a data sheet whose tables are exactly the
concatenation of every interpreter's tables, in interpreter list order and
within-interpreter order with no deduplication, and whose scalar map
resolves every key to the last value written for it across the
interpretations in list order (last-write-wins). -/
theorem spec_c2_composite_merge (templates : List SectionInterpreter)
    (content : StudentDataSheetImport) (ds : List DataSheetInterpretationDto)
    (hreq : ∀ k ∈ requiredKeys, (dictLookup content.form_data k).isSome = true)
    (hok : exceptMapM (fun t => t content) templates = Except.ok ds) :
    (∃ flds, (interpret_student_data_sheet templates content ⟨[], []⟩).1 =
      Except.ok flds) ∧
    (interpret_student_data_sheet templates content ⟨[], []⟩).2.tables =
      (ds.map DataSheetInterpretationDto.tables).flatten ∧
    ∀ k, dictLookup (interpret_student_data_sheet templates content ⟨[], []⟩).2.scalars k =
      lastWins ((ds.map DataSheetInterpretationDto.scalars).flatten) k := by
  obtain ⟨flds, hflds⟩ := readRequired_isOk content.form_data hreq
  cases hres : exceptMapMTraced (fun t => t content) templates with
  | mk r n =>
    have hr : r = Except.ok ds := by
      have h1 := exceptMapMTraced_fst (fun t => t content) templates
      rw [hres] at h1
      rw [← hok, ← h1]
    subst hr
    have hrun : interpret_student_data_sheet templates content ⟨[], []⟩ =
        (Except.ok flds, registerAll ⟨[], []⟩ ds) := by
      simp [interpret_student_data_sheet, interpret_traced, hflds, hres]
    refine ⟨⟨flds, by rw [hrun]⟩, ?_, ?_⟩
    · rw [hrun, registerAll_tables]
      rfl
    · intro k
      rw [hrun, registerAll_scalars, dictLookup_foldl_insert]
      simp [lastWins, dictLookup]

/-- Witness for C2: two simple interpreters both writing scalar key `k`
(values `v1` then `v2`) and each contributing one table; the resulting
sheet keeps `v2` for `k` and both tables in order. -/
theorem spec_c2_composite_merge_witness :
    (∀ k ∈ requiredKeys,
      (dictLookup [("Student Key", "JA"), ("Date", "1/1"), ("Time IN", "9"),
        ("Time OUT", "10"), ("Goal", "g"), ("Measure", "m")] k).isSome = true) ∧
    dictLookup
      (interpret_student_data_sheet
        [fun _ => Except.ok ⟨[⟨["A"], []⟩], [("k", "v1")]⟩,
         fun _ => Except.ok ⟨[⟨["B"], []⟩], [("k", "v2")]⟩]
        ⟨[("Student Key", "JA"), ("Date", "1/1"), ("Time IN", "9"),
          ("Time OUT", "10"), ("Goal", "g"), ("Measure", "m")], []⟩
        ⟨[], []⟩).2.scalars "k" = some "v2" ∧
    (interpret_student_data_sheet
        [fun _ => Except.ok ⟨[⟨["A"], []⟩], [("k", "v1")]⟩,
         fun _ => Except.ok ⟨[⟨["B"], []⟩], [("k", "v2")]⟩]
        ⟨[("Student Key", "JA"), ("Date", "1/1"), ("Time IN", "9"),
          ("Time OUT", "10"), ("Goal", "g"), ("Measure", "m")], []⟩
        ⟨[], []⟩).2.tables = [⟨["A"], []⟩, ⟨["B"], []⟩] := by
  refine ⟨by decide, ?_, ?_⟩
  · have h := spec_c2_composite_merge
      [fun _ => Except.ok ⟨[⟨["A"], []⟩], [("k", "v1")]⟩,
       fun _ => Except.ok ⟨[⟨["B"], []⟩], [("k", "v2")]⟩]
      ⟨[("Student Key", "JA"), ("Date", "1/1"), ("Time IN", "9"),
        ("Time OUT", "10"), ("Goal", "g"), ("Measure", "m")], []⟩
      [⟨[⟨["A"], []⟩], [("k", "v1")]⟩, ⟨[⟨["B"], []⟩], [("k", "v2")]⟩]
      (by decide) rfl
    rw [h.2.2 "k"]
    rfl
  · have h := spec_c2_composite_merge
      [fun _ => Except.ok ⟨[⟨["A"], []⟩], [("k", "v1")]⟩,
       fun _ => Except.ok ⟨[⟨["B"], []⟩], [("k", "v2")]⟩]
      ⟨[("Student Key", "JA"), ("Date", "1/1"), ("Time IN", "9"),
        ("Time OUT", "10"), ("Goal", "g"), ("Measure", "m")], []⟩
      [⟨[⟨["A"], []⟩], [("k", "v1")]⟩, ⟨[⟨["B"], []⟩], [("k", "v2")]⟩]
      (by decide) rfl
    rw [h.2.1]
    rfl

/-- C3.  When any of the six required keys is absent from the form data,
interpretation fails with the missing-required-field error for an absent
required key, with zero section interpreters invoked, the shared store
untouched, and an outcome independent of the configured interpreter list. -/
theorem spec_c3_missing_required_field (content : StudentDataSheetImport)
    (h : ∃ k, k ∈ requiredKeys ∧ dictLookup content.form_data k = none) :
    ∃ k, k ∈ requiredKeys ∧ dictLookup content.form_data k = none ∧
      ∀ (templates : List SectionInterpreter) (store : SheetStore),
        interpret_traced templates content store =
          ((Except.error (InterpError.missingRequiredField k), store), 0) := by
  cases h1 : dictLookup content.form_data "Student Key" with
  | none =>
    exact ⟨"Student Key", by simp [requiredKeys], h1, fun ts st => by
      simp [interpret_traced, readRequired, requiredLookup, h1]⟩
  | some v1 =>
  cases h2 : dictLookup content.form_data "Date" with
  | none =>
    exact ⟨"Date", by simp [requiredKeys], h2, fun ts st => by
      simp [interpret_traced, readRequired, requiredLookup, h1, h2]⟩
  | some v2 =>
  cases h3 : dictLookup content.form_data "Time IN" with
  | none =>
    exact ⟨"Time IN", by simp [requiredKeys], h3, fun ts st => by
      simp [interpret_traced, readRequired, requiredLookup, h1, h2, h3]⟩
  | some v3 =>
  cases h4 : dictLookup content.form_data "Time OUT" with
  | none =>
    exact ⟨"Time OUT", by simp [requiredKeys], h4, fun ts st => by
      simp [interpret_traced, readRequired, requiredLookup, h1, h2, h3, h4]⟩
  | some v4 =>
  cases h5 : dictLookup content.form_data "Goal" with
  | none =>
    exact ⟨"Goal", by simp [requiredKeys], h5, fun ts st => by
      simp [interpret_traced, readRequired, requiredLookup, h1, h2, h3, h4, h5]⟩
  | some v5 =>
  cases h6 : dictLookup content.form_data "Measure" with
  | none =>
    exact ⟨"Measure", by simp [requiredKeys], h6, fun ts st => by
      simp [interpret_traced, readRequired, requiredLookup, h1, h2, h3, h4, h5, h6]⟩
  | some v6 =>
    exfalso
    obtain ⟨k, hk, hnone⟩ := h
    simp only [requiredKeys, List.mem_cons, List.not_mem_nil, or_false] at hk
    rcases hk with rfl | rfl | rfl | rfl | rfl | rfl <;> simp_all

/-- Witness for C3: form data with only `Date` present fails with the
missing `Student Key`, invoking no interpreter. -/
theorem spec_c3_missing_required_field_witness :
    ∃ k, k ∈ requiredKeys ∧ dictLookup [("Date", "1/1")] k = none ∧
      ∀ (templates : List SectionInterpreter) (store : SheetStore),
        interpret_traced templates ⟨[("Date", "1/1")], []⟩ store =
          ((Except.error (InterpError.missingRequiredField k), store), 0) :=
  spec_c3_missing_required_field ⟨[("Date", "1/1")], []⟩
    ⟨"Student Key", by simp [requiredKeys], rfl⟩

/-- C7.  With the required metadata present, if the interpreter list splits
as `pre ++ t :: post` where everything in `pre` succeeds on the content and
`t` raises `e`, the whole call returns that first failing error unchanged
and produces no data sheet. -/
theorem spec_c7_first_error_propagates (templates pre post : List SectionInterpreter)
    (t : SectionInterpreter) (content : StudentDataSheetImport) (store : SheetStore)
    (e : InterpError)
    (hsplit : templates = pre ++ t :: post)
    (hpre : ∀ t2 ∈ pre, ∃ d, t2 content = Except.ok d)
    (ht : t content = Except.error e)
    (hreq : ∀ k ∈ requiredKeys, (dictLookup content.form_data k).isSome = true) :
    (interpret_student_data_sheet templates content store).1 = Except.error e := by
  obtain ⟨flds, hflds⟩ := readRequired_isOk content.form_data hreq
  have hmap : exceptMapM (fun t2 => t2 content) templates = Except.error e := by
    rw [hsplit]
    exact exceptMapM_append_error _ pre t post e hpre ht
  cases hres : exceptMapMTraced (fun t2 => t2 content) templates with
  | mk r n =>
    have hr : r = Except.error e := by
      have h1 := exceptMapMTraced_fst (fun t2 => t2 content) templates
      rw [hres] at h1
      rw [← hmap, ← h1]
    subst hr
    simp [interpret_student_data_sheet, interpret_traced, hflds, hres]


/-- Witness for C7: one succeeding interpreter followed by one that raises
the missing-column error; the call returns exactly that error. -/
theorem spec_c7_first_error_propagates_witness :
    (interpret_student_data_sheet
      [fun _ => Except.ok ⟨[], []⟩,
       fun _ => Except.error (InterpError.missingColumn "W" ["X"])]
      ⟨[("Student Key", "JA"), ("Date", "1/1"), ("Time IN", "9"),
        ("Time OUT", "10"), ("Goal", "g"), ("Measure", "m")], []⟩
      ⟨[], []⟩).1 = Except.error (InterpError.missingColumn "W" ["X"]) :=
  spec_c7_first_error_propagates _ [fun _ => Except.ok ⟨[], []⟩] []
    (fun _ => Except.error (InterpError.missingColumn "W" ["X"]))
    ⟨[("Student Key", "JA"), ("Date", "1/1"), ("Time IN", "9"),
      ("Time OUT", "10"), ("Goal", "g"), ("Measure", "m")], []⟩
    ⟨[], []⟩ (InterpError.missingColumn "W" ["X"]) rfl
    (by
      intro t2 ht2
      rw [List.mem_singleton] at ht2
      subst ht2
      exact ⟨⟨[], []⟩, rfl⟩)
    rfl (by decide)

/-- C10.  All interpretations are computed before any registration happens:
whenever some configured section interpreter raises on the content, the
whole call returns an error and the shared containers are exactly as they
were before the call — no table was appended and no scalar registered. -/
theorem spec_c10_no_partial_registration (templates : List SectionInterpreter)
    (content : StudentDataSheetImport) (store : SheetStore)
    (hfail : ∃ t ∈ templates, ∃ e, t content = Except.error e) :
    (interpret_student_data_sheet templates content store).2 = store ∧
    ∃ e2, (interpret_student_data_sheet templates content store).1 =
      Except.error e2 := by
  cases hrr : readRequired content.form_data with
  | error e =>
    constructor
    · simp [interpret_student_data_sheet, interpret_traced, hrr]
    · exact ⟨e, by simp [interpret_student_data_sheet, interpret_traced, hrr]⟩
  | ok flds =>
    obtain ⟨t, ht, e, hte⟩ := hfail
    obtain ⟨e2, he2⟩ :=
      exceptMapM_error_of_mem (fun t2 => t2 content) templates t e ht hte
    cases hres : exceptMapMTraced (fun t2 => t2 content) templates with
    | mk r n =>
      have hr : r = Except.error e2 := by
        have h1 := exceptMapMTraced_fst (fun t2 => t2 content) templates
        rw [hres] at h1
        rw [← he2, ← h1]
      subst hr
      constructor
      · simp [interpret_student_data_sheet, interpret_traced, hrr, hres]
      · exact ⟨e2,
          by simp [interpret_student_data_sheet, interpret_traced, hrr, hres]⟩

/-- Witness for C10: a raising interpreter leaves a non-empty pre-existing
store exactly as it was. -/
theorem spec_c10_no_partial_registration_witness :
    (interpret_student_data_sheet [fun _ => Except.error InterpError.typeError]
      ⟨[("Student Key", "JA"), ("Date", "1/1"), ("Time IN", "9"),
        ("Time OUT", "10"), ("Goal", "g"), ("Measure", "m")], []⟩
      ⟨[⟨["Old"], []⟩], [("old", "w")]⟩).2 =
        ⟨[⟨["Old"], []⟩], [("old", "w")]⟩ ∧
    ∃ e2, (interpret_student_data_sheet [fun _ => Except.error InterpError.typeError]
      ⟨[("Student Key", "JA"), ("Date", "1/1"), ("Time IN", "9"),
        ("Time OUT", "10"), ("Goal", "g"), ("Measure", "m")], []⟩
      ⟨[⟨["Old"], []⟩], [("old", "w")]⟩).1 = Except.error e2 :=
  spec_c10_no_partial_registration
    [fun _ => Except.error InterpError.typeError]
    ⟨[("Student Key", "JA"), ("Date", "1/1"), ("Time IN", "9"),
      ("Time OUT", "10"), ("Goal", "g"), ("Measure", "m")], []⟩
    ⟨[⟨["Old"], []⟩], [("old", "w")]⟩
    ⟨fun _ => Except.error InterpError.typeError, by simp,
      InterpError.typeError, rfl⟩

/-- First interpretation call of the C8 scenario: one interpreter
contributing the table with columns `["A"]`, starting from the initial
(empty) class-level containers of `StudentDataSheet`. -/
def c8Call1 : Except InterpError StudentDataSheetFields × SheetStore :=
  interpret_student_data_sheet [fun _ => Except.ok ⟨[⟨["A"], []⟩], []⟩]
    ⟨[("Student Key", "JA"), ("Date", "1/1"), ("Time IN", "9"),
      ("Time OUT", "10"), ("Goal", "g"), ("Measure", "m")], []⟩
    ⟨[], []⟩

/-- Second interpretation call of the C8 scenario, for a different sheet:
because `_tables` and `_scalars` are class attributes of `StudentDataSheet`
that `__init__` never re-initialises, the second call starts from — and
appends to — the same containers the first returned sheet still exposes. -/
def c8Call2 : Except InterpError StudentDataSheetFields × SheetStore :=
  interpret_student_data_sheet [fun _ => Except.ok ⟨[⟨["B"], []⟩], []⟩]
    ⟨[("Student Key", "JB"), ("Date", "2/2"), ("Time IN", "9"),
      ("Time OUT", "10"), ("Goal", "g"), ("Measure", "m")], []⟩
    c8Call1.2

/-- C8.  The claim says a returned data sheet is never mutated by a later
`interpret` call (each instance owning its containers).  In the source,
`StudentDataSheet._tables` and `._scalars` are class-level containers that
`__init__` never re-assigns, so all instances alias them: after the second
call, the shared container backing the first sheet's `tables` property
holds both calls' tables and is no longer what the first call left behind. -/
theorem spec_c8_shared_containers_mutated :
    c8Call1.2.tables = [⟨["A"], []⟩] ∧
    c8Call2.2.tables = [⟨["A"], []⟩, ⟨["B"], []⟩] ∧
    c8Call2.2.tables ≠ c8Call1.2.tables := by
  refine ⟨rfl, rfl, ?_⟩
  decide

/-! ### Lemmas for the label-splitting parser -/

theorem insertByPos_perm (x : List Char × Int) :
    ∀ l : List (List Char × Int), List.Perm (insertByPos x l) (x :: l) := by
  intro l
  induction l with
  | nil => exact List.Perm.refl _
  | cons y ys ih =>
    rw [insertByPos]
    by_cases h : x.2 ≤ y.2
    · rw [if_pos h]
    · rw [if_neg h]
      exact (List.Perm.cons y ih).trans (List.Perm.swap x y ys)

theorem sortByPos_perm : ∀ l, List.Perm (sortByPos l) l := by
  intro l
  induction l with
  | nil => exact List.Perm.refl _
  | cons a t ih =>
    rw [sortByPos, List.foldr_cons]
    refine (insertByPos_perm a _).trans (List.Perm.cons a ?_)
    rw [← sortByPos]
    exact ih

theorem insertByPos_pairwise (x : List Char × Int) :
    ∀ l, l.Pairwise (fun a b : List Char × Int => a.2 ≤ b.2) →
      (insertByPos x l).Pairwise (fun a b => a.2 ≤ b.2) := by
  intro l
  induction l with
  | nil =>
    intro _
    simp [insertByPos]
  | cons y ys ih =>
    intro h
    rw [List.pairwise_cons] at h
    obtain ⟨hy, hys⟩ := h
    rw [insertByPos]
    by_cases hcmp : x.2 ≤ y.2
    · rw [if_pos hcmp, List.pairwise_cons]
      refine ⟨?_, List.pairwise_cons.mpr ⟨hy, hys⟩⟩
      intro z hz
      rcases List.mem_cons.mp hz with rfl | hz2
      · exact hcmp
      · exact le_trans hcmp (hy z hz2)
    · rw [if_neg hcmp, List.pairwise_cons]
      refine ⟨?_, ih hys⟩
      intro z hz
      have hz2 := (insertByPos_perm x ys).mem_iff.mp hz
      rcases List.mem_cons.mp hz2 with rfl | hz3
      · omega
      · exact hy z hz3

theorem sortByPos_pairwise : ∀ l, (sortByPos l).Pairwise (fun a b => a.2 ≤ b.2) := by
  intro l
  induction l with
  | nil => simp [sortByPos]
  | cons a t ih =>
    rw [sortByPos, List.foldr_cons]
    refine insertByPos_pairwise a _ ?_
    rw [← sortByPos]
    exact ih

theorem neg_one_le_findPos (text l : List Char) : -1 ≤ findPos text l := by
  cases h : firstOccur l text with
  | none => simp [findPos, h]
  | some n =>
    simp only [findPos, h]
    omega

theorem dictLookup_eq_none_of_not_mem {κ α : Type} [DecidableEq κ]
    (l : List (κ × α)) (k : κ) (h : ¬ k ∈ l.map Prod.fst) : dictLookup l k = none := by
  induction l with
  | nil => rfl
  | cons p t ih =>
    simp only [List.map_cons, List.mem_cons, not_or] at h
    have hp : ¬ p.1 = k := fun h2 => h.1 h2.symm
    simp [dictLookup, hp, ih h.2]

theorem dictLookup_reverse_of_nodup {κ α : Type} [DecidableEq κ] :
    ∀ l : List (κ × α), (l.map Prod.fst).Nodup →
      ∀ k, dictLookup l.reverse k = dictLookup l k := by
  intro l
  induction l with
  | nil => intro _ k; rfl
  | cons p t ih =>
    intro h k
    rw [List.map_cons, List.nodup_cons] at h
    obtain ⟨hp, ht⟩ := h
    rw [List.reverse_cons, dictLookup_append]
    by_cases hk : p.1 = k
    · have hnone : dictLookup t.reverse k = none := by
        refine dictLookup_eq_none_of_not_mem _ _ ?_
        rw [List.map_reverse, List.mem_reverse]
        exact fun hmem => hp (hk ▸ hmem)
      rw [hnone]
      simp [dictLookup, hk]
    · rw [ih ht k]
      simp [dictLookup, hk]

theorem dictLookup_get_of_nodup {κ α : Type} [DecidableEq κ] :
    ∀ l : List (κ × α), (l.map Prod.fst).Nodup →
      ∀ i (h : i < l.length), dictLookup l (l.get ⟨i, h⟩).1 = some (l.get ⟨i, h⟩).2 := by
  intro l
  induction l with
  | nil =>
    intro _ i h
    simp at h
  | cons p t ih =>
    intro hnd i h
    rw [List.map_cons, List.nodup_cons] at hnd
    obtain ⟨hp, ht⟩ := hnd
    cases i with
    | zero => simp [dictLookup]
    | succ j =>
      have hj : j < t.length := by simpa using h
      have hget : (p :: t).get ⟨j + 1, h⟩ = t.get ⟨j, hj⟩ := rfl
      have hne : ¬ p.1 = (t.get ⟨j, hj⟩).1 := by
        intro h2
        exact hp (h2 ▸ List.mem_map_of_mem Prod.fst (t.get_mem _ _))
      rw [hget]
      simp only [dictLookup, hne, if_neg]
      exact ih ht j hj

theorem spanEnd_zero (text : List Char) (lp : List Char × Int)
    (rest : List (List Char × Int)) :
    spanEnd text (lp :: rest) 0 = nextPosOf text rest := by
  cases rest with
  | nil => simp [spanEnd, nextPosOf]
  | cons q t =>
    obtain ⟨l2, p2⟩ := q
    simp [spanEnd, nextPosOf]

theorem spanEnd_succ (text : List Char) (lp : List Char × Int)
    (rest : List (List Char × Int)) (i : Nat) :
    spanEnd text (lp :: rest) (i + 1) = spanEnd text rest i := by
  simp [spanEnd]

theorem spansOf_get (text : List Char) :
    ∀ (sorted : List (List Char × Int)) (entries : List (List Char × LabelContent)),
      spansOf text sorted = Except.ok entries →
      entries.length = sorted.length ∧
      ∀ i (h : i < sorted.length) (h2 : i < entries.length),
        ∃ tl,
          afterFirstColon
            (pyStrip (pySlice text (sorted.get ⟨i, h⟩).2 (spanEnd text sorted i))) =
            some tl ∧
          entries.get ⟨i, h2⟩ =
            (lowerChars (sorted.get ⟨i, h⟩).1,
             ⟨(sorted.get ⟨i, h⟩).1,
              pyStrip (pySlice text (sorted.get ⟨i, h⟩).2 (spanEnd text sorted i)),
              pyStrip tl⟩) := by
  intro sorted
  induction sorted with
  | nil =>
    intro entries hok
    simp only [spansOf] at hok
    injection hok with h1
    subst h1
    refine ⟨rfl, ?_⟩
    intro i h
    simp at h
  | cons lp rest ih =>
    intro entries hok
    obtain ⟨l, p⟩ := lp
    rw [spansOf] at hok
    cases hcol : afterFirstColon (pyStrip (pySlice text p (nextPosOf text rest))) with
    | none =>
      simp only [hcol] at hok
      exact Except.noConfusion hok
    | some tl =>
      simp only [hcol] at hok
      cases hrest : spansOf text rest with
      | error e =>
        simp only [hrest] at hok
        exact Except.noConfusion hok
      | ok entries2 =>
        simp only [hrest] at hok
        injection hok with h1
        subst h1
        obtain ⟨hlen, hget⟩ := ih entries2 hrest
        refine ⟨by simp [hlen], ?_⟩
        intro i h h2
        cases i with
        | zero =>
          refine ⟨tl, ?_, ?_⟩
          · rw [spanEnd_zero]
            exact hcol
          · rw [spanEnd_zero]
            rfl
        | succ j =>
          have hj : j < rest.length := by simpa using h
          have hj2 : j < entries2.length := by
            rw [hlen]
            exact hj
          obtain ⟨tl2, hc2, he2⟩ := hget j hj hj2
          refine ⟨tl2, ?_, ?_⟩
          · rw [spanEnd_succ]
            exact hc2
          · rw [spanEnd_succ]
            exact he2

theorem sortedLabels_perm (text : List Char) (labels : List (List Char)) :
    List.Perm (sortedLabels text labels) (labels.map (fun l => (l, findPos text l))) :=
  sortByPos_perm _

theorem sortedLabels_pairwise (text : List Char) (labels : List (List Char)) :
    (sortedLabels text labels).Pairwise (fun a b => a.2 ≤ b.2) :=
  sortByPos_pairwise _

/-- C9.  When every label occurs in the text, the lowercased labels are
pairwise distinct and none of them is `student_key`, a successful run of
`_split_by_labels` maps each label — taken at its index in the
position-sorted list — to the stripped span running from that label's
first-occurrence position to the next label's position (end of text for
the last label), with the content after the span's first colon as the
content-without-label, and exposes the stripped text before the first
sorted position as `student_key`.  Separately, a label not found in the
text receives position `-1` and is placed first under the sort: its entry
is in the sorted list, whose `-1`-positioned entries form a prefix. -/
theorem spec_c9_label_splitting (text : List Char) (labels : List (List Char)) :
    ((labels.map lowerChars).Nodup →
      (¬ "student_key".toList ∈ labels.map lowerChars) →
      (∀ l ∈ labels, (firstOccur l text).isSome = true) →
      ∀ m, split_by_labels text labels = Except.ok m →
        (∀ i (h : i < (sortedLabels text labels).length),
          ∃ tl,
            afterFirstColon (pyStrip (pySlice text
                ((sortedLabels text labels).get ⟨i, h⟩).2
                (spanEnd text (sortedLabels text labels) i))) = some tl ∧
            dictLookup m (lowerChars ((sortedLabels text labels).get ⟨i, h⟩).1) =
              some ⟨((sortedLabels text labels).get ⟨i, h⟩).1,
                pyStrip (pySlice text ((sortedLabels text labels).get ⟨i, h⟩).2
                  (spanEnd text (sortedLabels text labels) i)),
                pyStrip tl⟩) ∧
        ∀ lp0 rest0, sortedLabels text labels = lp0 :: rest0 →
          dictLookup m "student_key".toList =
            some ⟨"Student Key".toList, pyStrip (pySlice text 0 lp0.2),
              pyStrip (pySlice text 0 lp0.2)⟩) ∧
    ∀ l, l ∈ labels → firstOccur l text = none →
      findPos text l = -1 ∧
      (l, -1) ∈ sortedLabels text labels ∧
      ∀ i j (hi : i < (sortedLabels text labels).length)
        (hj : j < (sortedLabels text labels).length), i ≤ j →
        ((sortedLabels text labels).get ⟨j, hj⟩).2 = -1 →
        ((sortedLabels text labels).get ⟨i, hi⟩).2 = -1 := by
  constructor
  · intro hnodup hsk _hfound m hok
    rw [split_by_labels] at hok
    have hperm : List.Perm (sortedLabels text labels)
        (labels.map (fun l => (l, findPos text l))) := sortedLabels_perm text labels
    have hpw : (sortedLabels text labels).Pairwise (fun a b => a.2 ≤ b.2) :=
      sortedLabels_pairwise text labels
    generalize hSdef : sortedLabels text labels = S at hok hperm hpw ⊢
    cases hsp : spansOf text S with
    | error e =>
      simp only [hsp] at hok
      exact Except.noConfusion hok
    | ok entries =>
      simp only [hsp] at hok
      cases S with
      | nil =>
        simp only at hok
        exact Except.noConfusion hok
      | cons lp0 rest0 =>
        obtain ⟨l0, p0⟩ := lp0
        simp only at hok
        injection hok with hm
        subst hm
        obtain ⟨hlen, hget⟩ := spansOf_get text ((l0, p0) :: rest0) entries hsp
        have hkeys : entries.map Prod.fst =
            ((l0, p0) :: rest0).map (fun q => lowerChars q.1) := by
          apply List.ext_get
          · simp [hlen]
          · intro n h1 h2
            have hn : n < ((l0, p0) :: rest0).length := by simpa using h2
            have hn2 : n < entries.length := by
              rw [hlen]
              exact hn
            obtain ⟨tln, _hcn, hen⟩ := hget n hn hn2
            rw [List.get_map, List.get_map, hen]
        have hkeysnodup : (entries.map Prod.fst).Nodup := by
          rw [hkeys]
          have hperm2 := hperm.map (fun q : List Char × Int => lowerChars q.1)
          refine hperm2.nodup_iff.mpr ?_
          rw [List.map_map]
          exact hnodup
        refine ⟨?_, ?_⟩
        · intro i h
          have h2 : i < entries.length := by
            rw [hlen]
            exact h
          obtain ⟨tl, hcol, he⟩ := hget i h h2
          refine ⟨tl, hcol, ?_⟩
          have hlab_mem : ((l0, p0) :: rest0).get ⟨i, h⟩ ∈
              labels.map (fun l => (l, findPos text l)) :=
            hperm.mem_iff.mp (List.get_mem _ _ _)
          obtain ⟨lab0, hlab0, heq⟩ := List.mem_map.mp hlab_mem
          have hlow_mem : lowerChars (((l0, p0) :: rest0).get ⟨i, h⟩).1 ∈
              labels.map lowerChars := by
            rw [← heq]
            exact List.mem_map_of_mem lowerChars hlab0
          have hkey_ne : ¬ lowerChars (((l0, p0) :: rest0).get ⟨i, h⟩).1 =
              "student_key".toList := fun hc => hsk (hc ▸ hlow_mem)
          rw [dictLookup_dictInsert, if_neg hkey_ne, dictLookup_foldl_insert]
          have hnil : dictLookup ([] : List (List Char × LabelContent))
              (lowerChars (((l0, p0) :: rest0).get ⟨i, h⟩).1) = none := rfl
          rw [hnil, Option.or_none, dictLookup_reverse_of_nodup entries hkeysnodup]
          have hkeyeq : lowerChars (((l0, p0) :: rest0).get ⟨i, h⟩).1 =
              (entries.get ⟨i, h2⟩).1 := by rw [he]
          rw [hkeyeq, dictLookup_get_of_nodup entries hkeysnodup i h2, he]
        · intro lp0' rest0' hS'
          injection hS' with hh _ht
          subst hh
          rw [dictLookup_dictInsert, if_pos rfl]
  · intro l hl hnone
    have hfp : findPos text l = -1 := by simp [findPos, hnone]
    refine ⟨hfp, ?_, ?_⟩
    · refine (sortedLabels_perm text labels).mem_iff.mpr ?_
      have hmem : (l, findPos text l) ∈ labels.map (fun l2 => (l2, findPos text l2)) :=
        List.mem_map_of_mem (fun l2 => (l2, findPos text l2)) hl
      rw [hfp] at hmem
      exact hmem
    · intro i j hi hj hij hjneg
      rcases Nat.lt_or_ge i j with hlt | hge
      · have hle := List.pairwise_iff_get.mp (sortedLabels_pairwise text labels)
          ⟨i, hi⟩ ⟨j, hj⟩ hlt
        have hmem : (sortedLabels text labels).get ⟨i, hi⟩ ∈
            labels.map (fun l2 => (l2, findPos text l2)) :=
          (sortedLabels_perm text labels).mem_iff.mp (List.get_mem _ _ _)
        obtain ⟨lab0, _, heq⟩ := List.mem_map.mp hmem
        have hlow : -1 ≤ ((sortedLabels text labels).get ⟨i, hi⟩).2 := by
          rw [← heq]
          exact neg_one_le_findPos text lab0
        omega
      · have hij2 : i = j := le_antisymm hij hge
        subst hij2
        exact hjneg

/-- Witness for C9 on concrete input: text `JA\nDate: 1/2\nGoal: read` with
labels `Date`, `Goal`; the parse succeeds and exposes the text before the
first sorted label position as `student_key`. -/
theorem spec_c9_label_splitting_witness :
    ∃ m, split_by_labels "JA\nDate: 1/2\nGoal: read".toList
        ["Date".toList, "Goal".toList] = Except.ok m ∧
      ∀ lp0 rest0,
        sortedLabels "JA\nDate: 1/2\nGoal: read".toList
          ["Date".toList, "Goal".toList] = lp0 :: rest0 →
        dictLookup m "student_key".toList =
          some ⟨"Student Key".toList,
            pyStrip (pySlice "JA\nDate: 1/2\nGoal: read".toList 0 lp0.2),
            pyStrip (pySlice "JA\nDate: 1/2\nGoal: read".toList 0 lp0.2)⟩ := by
  have hsome : (split_by_labels "JA\nDate: 1/2\nGoal: read".toList
      ["Date".toList, "Goal".toList]).toOption.isSome = true := by decide
  cases hok : split_by_labels "JA\nDate: 1/2\nGoal: read".toList
      ["Date".toList, "Goal".toList] with
  | error e =>
    rw [hok] at hsome
    simp [Except.toOption] at hsome
  | ok m =>
    refine ⟨m, rfl, ?_⟩
    exact ((spec_c9_label_splitting "JA\nDate: 1/2\nGoal: read".toList
      ["Date".toList, "Goal".toList]).1
      (by decide) (by decide) (by decide) m hok).2

end SlpData
